/-
Verification of the tabular report reconciliation engine of the comp_meta
repository against its natural-language specification.

The Lean definitions below are shallow embeddings of the Python source:
 - src/scrt/calc/user_calc.py        (DataCombiner: key normalizer, column
   resolver, multi-source merge engine, schema projector)
 - src/scrt/proc/read_venda_filial.py (VendasFilialProcessor: banded-report
   grouped-row extractor and header lookup)
 - src/scrt/proc/ready_venda_filial.py (legacy script variant of the same
   extractor, whose main skips the upload on an empty extraction)
 - src/scrt/proc/ready_comissao_vendedor.py (ComissaoProcessor: the
   detail-row variant of the banded extractor)

Python strings are modelled as Lean Strings, with the string primitives the
source uses (strip, lower, substring containment, split, zfill, int(),
str.isnumeric) reimplemented over the character list so that every
definition evaluates inside the kernel.  Spreadsheet cell values are
modelled by the Cell type (string, integer or Python None); the reports the
scripts consume carry only these shapes in the columns the code reads.
-/
import Mathlib

deriving instance DecidableEq for Except

namespace CompMeta

/-! ### Python string primitives -/

/-- Lowercasing of a single character as in Python str.lower, covering
ASCII letters and the Latin-1 uppercase range (which includes the accented
letters appearing in the report headers, e.g. Ó → ó). -/
def lowerChar (c : Char) : Char :=
  if 'A' ≤ c ∧ c ≤ 'Z' then Char.ofNat (c.toNat + 32)
  else if 0xC0 ≤ c.toNat ∧ c.toNat ≤ 0xDE ∧ c.toNat ≠ 0xD7 then Char.ofNat (c.toNat + 32)
  else c

/-- Python str.lower. -/
def pyLower (s : String) : String := String.mk (s.data.map lowerChar)

/-- Characters removed by Python str.strip() with no argument. -/
def trimEnds (l : List Char) : List Char :=
  ((l.dropWhile Char.isWhitespace).reverse.dropWhile Char.isWhitespace).reverse

/-- Python str.strip(): leading and trailing whitespace removed. -/
def pyStrip (s : String) : String := String.mk (trimEnds s.data)

/-- Whether the character list l starts with the character list pat. -/
def startsWithChars : List Char → List Char → Bool
  | [], _ => true
  | _ :: _, [] => false
  | a :: as, b :: bs => a = b && startsWithChars as bs

/-- Whether the character list l contains pat as a contiguous substring
(Python operator: pat in l).  An empty pattern is contained everywhere. -/
def containsChars : List Char → List Char → Bool
  | [], pat => startsWithChars pat []
  | c :: t, pat => startsWithChars pat (c :: t) || containsChars t pat

/-- Python substring containment: sub in s. -/
def pyContains (s sub : String) : Bool := containsChars s.data sub.data

/-- Python str.startswith. -/
def pyStartsWith (s pre : String) : Bool := startsWithChars pre.data s.data

/-- Python str.zfill on the unsigned identifiers used here: left-pad with
zeros to the given width. -/
def zfill (width : Nat) (s : String) : String :=
  if width ≤ s.data.length then s
  else String.mk (List.replicate (width - s.data.length) '0' ++ s.data)

/-- First whitespace-separated token of a string, modelling the source
expression str(x).split()[0] on cells that contain at least one token
(the scripts index into the split result without a guard; on an all
whitespace cell Python would raise instead, a case none of the report
cells exercises). -/
def firstToken (s : String) : String :=
  String.mk ((s.data.dropWhile Char.isWhitespace).takeWhile (fun c => ¬ c.isWhitespace))

/-- Python str.isnumeric restricted to the decimal digits the reports use:
nonempty and all characters decimal digits. -/
def isNumericStr (s : String) : Bool := ¬ s.data.isEmpty && s.data.all Char.isDigit

/-- Decimal value of a digit list. -/
def digitsVal (l : List Char) : Nat :=
  l.foldl (fun acc c => acc * 10 + (c.toNat - '0'.toNat)) 0

/-- Numeric parse of a string, modelling pandas pd.to_numeric with
errors equal to coerce (and Python int()) on the unsigned integer literals
these identifier columns carry: a nonempty all-digit string parses to its
value, anything else to none (pandas NaN). -/
def toNumeric (s : String) : Option Nat :=
  if isNumericStr s then some (digitsVal s.data) else none

/-! ### Spreadsheet cells -/

/-- An untyped spreadsheet cell as the scripts receive it from openpyxl or
pandas: a string, an integer, or Python None. -/
inductive Cell where
  | str (s : String)
  | int (n : Int)
  | blank
deriving DecidableEq, Repr

/-- Python str() of a cell (str(None) is the string None). -/
def pyStr : Cell → String
  | .str s => s
  | .int n => n.repr
  | .blank => "None"

/-- Python truthiness of a cell: None and the empty string and 0 are
falsy. -/
def truthy : Cell → Bool
  | .str s => ¬ s.data.isEmpty
  | .int n => n ≠ 0
  | .blank => false

/-- Row indexing row[i].  The source guards the accesses that can fall
outside the row and substitutes None for them; in-range accesses agree
with this model. -/
def getCell (row : List Cell) (i : Nat) : Cell := row.getD i Cell.blank

/-! ### Key Normalizer: DataCombiner._clean_cpf value transform
(src/scrt/calc/user_calc.py line 102): astype(str).str.replace of the
regex class of non-digits by the empty string. -/

/-- Normalization applied to each CPF value: every character that is not a
decimal digit is removed. -/
def cleanCPF (s : String) : String := String.mk (s.data.filter Char.isDigit)

/-! ### Column Resolver, variant one: DataCombiner._find_and_rename_column
(src/scrt/calc/user_calc.py lines 111-121). -/

/-- The match test of _find_and_rename_column: term.lower() in col.lower(),
a case-insensitive substring test (no diacritic folding). -/
def columnMatches (col term : String) : Bool :=
  pyContains (pyLower col) (pyLower term)

/-- The column located by _find_and_rename_column: candidate terms are
tried in the caller-supplied order, and for each term the header columns
are scanned left to right; the first hit wins. -/
def findColumn (cols : List String) (terms : List String) : Option String :=
  match terms with
  | [] => none
  | t :: ts =>
    match cols.find? (fun c => columnMatches c t) with
    | some c => some c
    | none => findColumn cols ts

/-- The df.rename step: every column bearing the matched name is renamed to
the target name. -/
def renameColumn (cols : List String) (old target : String) : List String :=
  cols.map (fun c => if c = old then target else c)

/-- _find_and_rename_column on the column list: rename the located column
to the target name; when no column matches any term the source logs a
warning and returns the frame unchanged (it does not raise). -/
def findAndRenameColumn (cols : List String) (terms : List String) (target : String) :
    List String :=
  match findColumn cols terms with
  | some c => if c = target then cols else renameColumn cols c target
  | none => cols

/-! ### Column Resolver, variant two: VendasFilialProcessor._get_column_index
(src/scrt/proc/read_venda_filial.py lines 88-97). -/

/-- Header-cell text as _get_column_index computes it:
str(value).strip().lower() when the cell is truthy, the empty string
otherwise. -/
def headerText (c : Cell) : String :=
  if truthy c then pyLower (pyStrip (pyStr c)) else ""

/-- Scan for the first header cell whose text equals the target exactly. -/
def findHeaderIdx (target : String) : List Cell → Nat → Option Nat
  | [], _ => none
  | h :: t, i => if headerText h = target then some i else findHeaderIdx target t (i + 1)

/-- _get_column_index: exact (case-insensitive, stripped) equality against
the header row, returning the zero-based index of the first match, and
raising when no header matches. -/
def getColumnIndex (headers : List Cell) (name : String) : Except String Nat :=
  match findHeaderIdx (pyLower (pyStrip name)) headers 0 with
  | some i => Except.ok i
  | none => Except.error "Header not found in sheet"

/-- Modelled from the spec: the diacritic folding the specification
ascribes to the Column Resolver (case-folding and whitespace/diacritic
insensitive comparison).  The source code performs no such folding; this
definition exists only to state the specified comparison.  It maps the
lowercase accented Latin-1 vowels and the cedilla to their base letters. -/
def stripDiacritic (c : Char) : Char :=
  if c ∈ ['á', 'à', 'â', 'ã', 'ä'] then 'a'
  else if c ∈ ['é', 'è', 'ê', 'ë'] then 'e'
  else if c ∈ ['í', 'ì', 'î', 'ï'] then 'i'
  else if c ∈ ['ó', 'ò', 'ô', 'õ', 'ö'] then 'o'
  else if c ∈ ['ú', 'ù', 'û', 'ü'] then 'u'
  else if c = 'ç' then 'c'
  else c

/-- Modelled from the spec: the case-folded, diacritic-insensitive
substring match the specification describes for the Column Resolver. -/
def specColumnMatches (col term : String) : Bool :=
  pyContains (String.mk ((pyLower col).data.map stripDiacritic))
    (String.mk ((pyLower term).data.map stripDiacritic))

/-! ### Multi-Source Merge Engine: DataCombiner.combine_data
(src/scrt/calc/user_calc.py lines 123-282).  The embedding starts from the
two prepared tables, i.e. after the column resolution and renaming steps
have produced the required columns of each source: user_sci contributes
Filial, CPF and Cargo atual, user_trier contributes Código, CPF and
Funcionário.  Column preparation only renames and selects columns, so the
row lists are those of the fetched worksheets. -/

/-- A prepared row of the user_sci worksheet. -/
structure SciRow where
  filial : String
  cpf : String
  cargoAtual : String
deriving DecidableEq, Repr

/-- A prepared row of the user_trier worksheet. -/
structure TrierRow where
  codigo : String
  cpf : String
  funcionario : String
deriving DecidableEq, Repr

/-- A row of the final combined frame, in the fixed output schema. -/
structure FinalRow where
  filial : String
  codigo : String
  cpf : String
  nome : String
  cargoAtual : String
deriving DecidableEq, Repr

/-- The fixed output schema of combine_data and create_filtered_worksheet:
required_columns in the source. -/
def requiredColumns : List String := ["Filial", "Código", "CPF", "Nome", "Cargo atual"]

/-- The combined frame: its column list and its rows. -/
structure CombineResult where
  cols : List String
  rows : List FinalRow
deriving DecidableEq, Repr

/-- The empty frame combine_data returns on its failure paths:
pd.DataFrame(columns equal to the output schema), zero rows. -/
def emptyResult : CombineResult := ⟨requiredColumns, []⟩

/-- One merged output row (lines 229-249): Filial from user_sci, Código
from user_trier, CPF the join key, Nome copied from the Funcionário column
of user_trier, Cargo atual from user_sci. -/
def mkFinalRow (s : SciRow) (t : TrierRow) : FinalRow :=
  ⟨s.filial, t.codigo, s.cpf, t.funcionario, s.cargoAtual⟩

/-- Whether a CPF value survives the empty-key filter of lines 189-190:
astype(str).str.strip() different from the empty string. -/
def cpfKept (cpf : String) : Bool := !(pyStrip cpf == "")

/-- The inner merge pd.merge(sci, trier, on CPF, how inner) of lines
218-223: one output row per pair of rows with equal key, left rows in
order, and for each left row its right matches in order — pandas preserves
the left key order for an inner merge and multiplies duplicate keys. -/
def innerMergeRows (sciF : List SciRow) (trierF : List TrierRow) : List FinalRow :=
  sciF.flatMap (fun s => (trierF.filter (fun t => t.cpf == s.cpf)).map (mkFinalRow s))

/-- Ordering of Option Nat as pandas sorts a numeric column containing
NaN: numbers ascending, NaN (none) after every number, NaN tied with
NaN. -/
def optNatLE : Option Nat → Option Nat → Bool
  | some a, some b => a ≤ b
  | some _, none => true
  | none, some _ => false
  | none, none => true

/-- The two-column sort key of lines 264-274: Filial parsed numerically,
then Código parsed numerically. -/
def sortKey (r : FinalRow) : Option Nat × Option Nat :=
  (toNumeric r.filial, toNumeric r.codigo)

/-- Lexicographic comparison of the sort keys, NaN-last in each
component. -/
def keyLE (x y : Option Nat × Option Nat) : Bool :=
  if x.1 = y.1 then optNatLE x.2 y.2 else optNatLE x.1 y.1

/-- Row comparison used by the final sort. -/
def rowSortLE (a b : FinalRow) : Bool := keyLE (sortKey a) (sortKey b)

/-- Insertion of an element into a sorted list, placing it before the
first element it compares le to; inserting via foldr below yields the
stable sort, the order pandas sort_values produces (np.lexsort is
stable and places NaN keys last). -/
def insertSorted (le : α → α → Bool) (x : α) : List α → List α
  | [] => [x]
  | y :: ys => if le x y then x :: y :: ys else y :: insertSorted le x ys

/-- Stable sort: the unique sorted permutation that keeps the original
relative order of rows with equal keys, as pandas sort_values does. -/
def stableSort (le : α → α → Bool) (l : List α) : List α :=
  l.foldr (insertSorted le) []

/-- combine_data on the prepared tables: empty sources fail early with the
schema-only frame; rows with an empty (stripped) CPF are dropped from both
sides; when the two key sets do not intersect the schema-only empty frame
is returned as a value (line 214); otherwise the inner merge runs, rows
missing essential values are dropped (for these string-typed frames only
an empty stripped CPF qualifies, lines 252-258), and the result is sorted
by numeric Filial then numeric Código (lines 264-277). -/
def combineData (sci : List SciRow) (trier : List TrierRow) : CombineResult :=
  if sci.isEmpty then emptyResult
  else if trier.isEmpty then emptyResult
  else
    let sciF := sci.filter (fun r => cpfKept r.cpf)
    let trierF := trier.filter (fun r => cpfKept r.cpf)
    let hasCommon := sciF.any (fun s => trierF.any (fun t => t.cpf == s.cpf))
    if hasCommon then
      let merged := innerMergeRows sciF trierF
      let cleaned := merged.filter (fun r => cpfKept r.cpf)
      ⟨requiredColumns, stableSort rowSortLE cleaned⟩
    else emptyResult

/-! ### Schema Projector: DataCombiner.create_filtered_worksheet
(src/scrt/calc/user_calc.py lines 287-341).  The uploaded value matrix is
the schema header row followed by one row per input row, each projected to
the schema: a missing schema column is added holding the empty string for
every row (lines 316-321), and selecting df[required_columns] drops every
other column and fixes the order (line 324). -/

/-- A generic string table: column names and rows aligned positionally. -/
structure RawTable where
  cols : List String
  rows : List (List String)
deriving DecidableEq, Repr

/-- Value of a named field in a row: the entry at the column's position,
or the empty string when the table has no such column (the source adds the
missing column filled with the empty string before projecting). -/
def lookupCell (cols : List String) (row : List String) (c : String) : String :=
  match List.findIdx? (fun x => x == c) cols with
  | some i => row.getD i ""
  | none => ""

/-- Projection of one row to the fixed output schema, in schema order. -/
def projectRow (cols : List String) (row : List String) : List String :=
  requiredColumns.map (lookupCell cols row)

/-- The value matrix create_filtered_worksheet uploads: on an empty frame
just the header row (lines 309-314), otherwise the header row followed by
the schema-projected data rows. -/
def createFilteredValues (t : RawTable) : List (List String) :=
  if t.rows.isEmpty then [requiredColumns]
  else requiredColumns :: t.rows.map (projectRow t.cols)

/-! ### Grouped-Row Extractor, filial-totals shape:
VendasFilialProcessor.process_excel_data
(src/scrt/proc/read_venda_filial.py lines 140-201). -/

/-- The resolved column indices the scan reads. -/
structure VFCols where
  codigo : Nat
  venda : Nat
  custo : Nat
  descto : Nat
  ticket : Nat
deriving DecidableEq, Repr

/-- The loop-local mutable state of the scan: the captured group (filial)
identifier and the auxiliary Faturamento HB value pending attachment. -/
structure VFState where
  filial : Option String
  fatHB : Cell
deriving DecidableEq, Repr

/-- Initial state: filial_number and faturamento_hb both None. -/
def vfInit : VFState := ⟨none, Cell.blank⟩

/-- One emitted record of the filial-totals report. -/
structure VFRecord where
  filial : String
  faturamentoHB : Cell
  custoTotal : Cell
  faturamentoTotal : Cell
  ticketMedio : Cell
deriving DecidableEq, Repr

/-- The key-column text of a row (line 146):
str(row[col_codigo]).strip() when that cell is not None, else the empty
string. -/
def rowCodigo (cfg : VFCols) (row : List Cell) : String :=
  match getCell row cfg.codigo with
  | Cell.blank => ""
  | c => pyStrip (pyStr c)

/-- Python truthiness of the captured filial identifier (if not
filial_number): None and the empty string are falsy. -/
def filialFalsy : Option String → Bool
  | none => true
  | some s => s.data.isEmpty

/-- One transition of the scan of lines 145-186.  A Filial: marker row
captures the identifier from the adjacent cell when that cell is truthy
(the source checks if next_cell).  A row whose key is the sentinel 8000
stores the Total Vlr. Venda cell as the pending auxiliary value — with no
condition on a group being open.  A Total Filial row emits one record when
an identifier is captured (zero-padding it to two digits) and resets both
state fields; without an identifier it only logs a warning.  Every other
row is inert. -/
def vfStep (cfg : VFCols) (st : VFState) (row : List Cell) : VFState × List VFRecord :=
  let codigo := rowCodigo cfg row
  if pyLower codigo = "filial:" then
    let nextCell := getCell row (cfg.codigo + 1)
    if truthy nextCell then ({ st with filial := some (firstToken (pyStr nextCell)) }, [])
    else (st, [])
  else if codigo = "8000" then
    ({ st with fatHB := getCell row cfg.venda }, [])
  else if pyStartsWith (pyLower codigo) "total filial" then
    if filialFalsy st.filial then (st, [])
    else
      match st.filial with
      | none => (st, [])
      | some f =>
        (vfInit,
          [⟨zfill 2 f, st.fatHB, getCell row cfg.custo, getCell row cfg.descto,
            getCell row cfg.ticket⟩])
  else (st, [])

/-- The full scan over the row sequence. -/
def vfScanFrom (cfg : VFCols) (st : VFState) : List (List Cell) → List VFRecord
  | [] => []
  | row :: rest =>
    let next := vfStep cfg st row
    next.2 ++ vfScanFrom cfg next.1 rest

/-- The scan from the initial state. -/
def vfScan (cfg : VFCols) (rows : List (List Cell)) : List VFRecord :=
  vfScanFrom cfg vfInit rows

/-- process_excel_data after the scan (lines 188-192): an empty record
list raises VendasFilialError, otherwise the records are returned.  (The
subsequent per-column pd.to_numeric coercion of lines 195-198 maps the
already numeric cells of these reports to themselves and is not
modelled.) -/
def processExcelRows (cfg : VFCols) (rows : List (List Cell)) :
    Except String (List VFRecord) :=
  let recs := vfScan cfg rows
  if recs.isEmpty then Except.error "No valid filial data found after processing"
  else Except.ok recs

/-! ### The legacy script variant: process_excel_data and main of
src/scrt/proc/ready_venda_filial.py (lines 101-130 and 185-197). -/

/-- The key-column text in the legacy variant (line 102 of its scan
loop): str(row[col_codigo]).strip() when the cell is truthy (not merely
non-None), else the empty string. -/
def readyRowCodigo (cfg : VFCols) (row : List Cell) : String :=
  let c := getCell row cfg.codigo
  if truthy c then pyStrip (pyStr c) else ""

/-- One transition of the legacy scan: as vfStep, except that the Filial:
marker row captures str(row[col_codigo + 1]).split()[0] unconditionally. -/
def readyVfStep (cfg : VFCols) (st : VFState) (row : List Cell) : VFState × List VFRecord :=
  let codigo := readyRowCodigo cfg row
  if pyLower codigo = "filial:" then
    ({ st with filial := some (firstToken (pyStr (getCell row (cfg.codigo + 1)))) }, [])
  else if codigo = "8000" then
    ({ st with fatHB := getCell row cfg.venda }, [])
  else if pyStartsWith (pyLower codigo) "total filial" then
    if filialFalsy st.filial then (st, [])
    else
      match st.filial with
      | none => (st, [])
      | some f =>
        (vfInit,
          [⟨zfill 2 f, st.fatHB, getCell row cfg.custo, getCell row cfg.descto,
            getCell row cfg.ticket⟩])
  else (st, [])

/-- The legacy scan over the row sequence. -/
def readyVfScanFrom (cfg : VFCols) (st : VFState) : List (List Cell) → List VFRecord
  | [] => []
  | row :: rest =>
    let next := readyVfStep cfg st row
    next.2 ++ readyVfScanFrom cfg next.1 rest

/-- The legacy scan from the initial state.  The legacy process_excel_data
returns this record list directly, with no emptiness check. -/
def readyVfScan (cfg : VFCols) (rows : List (List Cell)) : List VFRecord :=
  readyVfScanFrom cfg vfInit rows

/-- Outcome of main in ready_venda_filial.py (lines 186-192): on an empty
extraction it logs a warning and returns normally, skipping the upload; on
a nonempty extraction it uploads the records.  No exception is raised for
the empty case. -/
inductive ReadyOutcome where
  | skippedEmpty
  | uploaded (recs : List VFRecord)
deriving DecidableEq, Repr

/-- The empty-extraction handling of main in ready_venda_filial.py. -/
def readyVendaFilialMain (cfg : VFCols) (rows : List (List Cell)) : ReadyOutcome :=
  let recs := readyVfScan cfg rows
  if recs.isEmpty then ReadyOutcome.skippedEmpty else ReadyOutcome.uploaded recs

/-! ### Grouped-Row Extractor, commission-by-employee shape:
ComissaoProcessor.process_excel_data
(src/scrt/proc/ready_comissao_vendedor.py lines 94-141). -/

/-- A row of the commission report restricted to the required columns. -/
structure ComRow where
  codigo : Cell
  vendedor : Cell
  baseComissao : Cell
  pctComissao : Cell
  valorComissao : Cell
deriving DecidableEq, Repr

/-- One emitted commission record. -/
structure ComRecord where
  codigo : String
  colaborador : Cell
  filial : String
  baseComissao : Cell
  pctComissao : Cell
  valorComissao : Cell
deriving DecidableEq, Repr

/-- The loop-local state: the currently open filial identifier. -/
structure ComState where
  filial : Option String
deriving DecidableEq, Repr

/-- One transition of the commission scan (lines 98-119): a row whose
Código text contains the marker Filial: captures the stripped Vendedor
cell as the open group identifier; a row with purely numeric Código is a
detail row, emitted immediately and tagged with the open identifier, or
skipped with a warning when no identifier is open; every other row is
inert. -/
def comStep (st : ComState) (row : ComRow) : ComState × List ComRecord :=
  let codigo := pyStr row.codigo
  if pyContains codigo "Filial:" then
    ({ filial := some (pyStrip (pyStr row.vendedor)) }, [])
  else if isNumericStr codigo then
    if filialFalsy st.filial then (st, [])
    else
      match st.filial with
      | none => (st, [])
      | some f =>
        (st, [⟨codigo, row.vendedor, f, row.baseComissao, row.pctComissao,
          row.valorComissao⟩])
  else (st, [])

/-- The commission scan over the row sequence. -/
def comScanFrom (st : ComState) : List ComRow → List ComRecord
  | [] => []
  | row :: rest =>
    let next := comStep st row
    next.2 ++ comScanFrom next.1 rest

/-- The commission scan from the initial state (filial None). -/
def comScan (rows : List ComRow) : List ComRecord :=
  comScanFrom ⟨none⟩ rows

/-- The Filial formatting step of line 128: astype(int) then zfill(2);
a non-numeric captured identifier makes astype(int) raise. -/
def comFormat (r : ComRecord) : Option ComRecord :=
  match toNumeric (pyStrip r.filial) with
  | some n => some { r with filial := zfill 2 n.repr }
  | none => none

/-- process_excel_data of the commission processor after the scan (lines
122-141): an empty record list raises ComissaoProcessingError; otherwise
the Filial identifiers are formatted (any failure there also surfaces as
ComissaoProcessingError through the outer handler) and the records
returned. -/
def comissaoProcess (rows : List ComRow) : Except String (List ComRecord) :=
  let recs := comScan rows
  if recs.isEmpty then Except.error "No valid employee rows found after processing"
  else
    match recs.mapM comFormat with
    | some recs2 => Except.ok recs2
    | none => Except.error "Failed to process Excel file"

/-- A concrete column layout used by the closed evaluations below: the key
column first, Total Vlr. Venda and Total Vlr. Custo in column two,
Vlr. Descto in column three, the ticket column in column four. -/
def demoCfg : VFCols := ⟨0, 2, 2, 3, 4⟩

/-! ### Helper lemmas about the stable sort -/

theorem insertSorted_perm {α : Type _} (le : α → α → Bool) (x : α) (l : List α) :
    (insertSorted le x l).Perm (x :: l) := by
  induction l with
  | nil => simp [insertSorted]
  | cons y ys ih =>
    by_cases h : le x y = true
    · simp [insertSorted, h]
    · simp only [insertSorted, if_neg h]
      exact (ih.cons y).trans (List.Perm.swap x y ys)

theorem stableSort_perm {α : Type _} (le : α → α → Bool) (l : List α) :
    (stableSort le l).Perm l := by
  induction l with
  | nil => simp [stableSort]
  | cons x xs ih =>
    have hstep : stableSort le (x :: xs) = insertSorted le x (stableSort le xs) := rfl
    rw [hstep]
    exact (insertSorted_perm le x (stableSort le xs)).trans (ih.cons x)

theorem countP_stableSort {α : Type _} (le : α → α → Bool) (p : α → Bool) (l : List α) :
    (stableSort le l).countP p = l.countP p :=
  (stableSort_perm le l).countP_eq p

theorem pairwise_insertSorted {α : Type _} (le : α → α → Bool)
    (htrans : ∀ a b c, le a b = true → le b c = true → le a c = true)
    (htot : ∀ a b, (le a b || le b a) = true)
    (x : α) (l : List α) (hl : l.Pairwise (fun a b => le a b = true)) :
    (insertSorted le x l).Pairwise (fun a b => le a b = true) := by
  induction l with
  | nil => simp [insertSorted]
  | cons y ys ih =>
    rcases List.pairwise_cons.mp hl with ⟨hy, hys⟩
    by_cases h : le x y = true
    · simp only [insertSorted, if_pos h]
      refine List.pairwise_cons.mpr ⟨?_, hl⟩
      intro z hz
      rcases List.mem_cons.mp hz with rfl | hz2
      · exact h
      · exact htrans _ _ _ h (hy z hz2)
    · simp only [insertSorted, if_neg h]
      refine List.pairwise_cons.mpr ⟨?_, ih hys⟩
      intro z hz
      have hz2 : z ∈ x :: ys := (insertSorted_perm le x ys).mem_iff.mp hz
      rcases List.mem_cons.mp hz2 with hzx | hz3
      · rw [hzx]
        rcases Bool.or_eq_true_iff.mp (htot x y) with h1 | h2
        · exact absurd h1 h
        · exact h2
      · exact hy z hz3

theorem pairwise_stableSort {α : Type _} (le : α → α → Bool)
    (htrans : ∀ a b c, le a b = true → le b c = true → le a c = true)
    (htot : ∀ a b, (le a b || le b a) = true)
    (l : List α) :
    (stableSort le l).Pairwise (fun a b => le a b = true) := by
  induction l with
  | nil => simp [stableSort]
  | cons x xs ih =>
    have hstep : stableSort le (x :: xs) = insertSorted le x (stableSort le xs) := rfl
    rw [hstep]
    exact pairwise_insertSorted le htrans htot x _ ih

/-! ### Helper lemmas about the numeric-aware comparison -/

theorem optNatLE_total (a b : Option Nat) : (optNatLE a b || optNatLE b a) = true := by
  rcases a with _ | x <;> rcases b with _ | y <;> simp [optNatLE] <;> omega

theorem optNatLE_trans (a b c : Option Nat)
    (h1 : optNatLE a b = true) (h2 : optNatLE b c = true) : optNatLE a c = true := by
  rcases a with _ | x <;> rcases b with _ | y <;> rcases c with _ | z <;>
    simp [optNatLE] at * <;> omega

theorem optNatLE_antisymm (a b : Option Nat)
    (h1 : optNatLE a b = true) (h2 : optNatLE b a = true) : a = b := by
  rcases a with _ | x <;> rcases b with _ | y <;> simp [optNatLE] at * <;> omega

theorem keyLE_total (x y : Option Nat × Option Nat) : (keyLE x y || keyLE y x) = true := by
  by_cases h : x.1 = y.1
  · simp [keyLE, h, optNatLE_total]
  · have hsymm : ¬ y.1 = x.1 := fun he => h he.symm
    simp [keyLE, h, hsymm, optNatLE_total]

theorem keyLE_trans (x y z : Option Nat × Option Nat)
    (h1 : keyLE x y = true) (h2 : keyLE y z = true) : keyLE x z = true := by
  by_cases e1 : x.1 = y.1 <;> by_cases e2 : y.1 = z.1
  · have e3 : x.1 = z.1 := e1.trans e2
    simp only [keyLE, if_pos e1] at h1
    simp only [keyLE, if_pos e2] at h2
    simp only [keyLE, if_pos e3]
    exact optNatLE_trans _ _ _ h1 h2
  · have e3 : ¬ x.1 = z.1 := fun he => e2 (e1.symm.trans he)
    simp only [keyLE, if_pos e1] at h1
    simp only [keyLE, if_neg e2] at h2
    simp only [keyLE, if_neg e3]
    rw [e1]
    exact h2
  · have e3 : ¬ x.1 = z.1 := fun he => e1 (he.trans e2.symm)
    simp only [keyLE, if_neg e1] at h1
    simp only [keyLE, if_pos e2] at h2
    simp only [keyLE, if_neg e3]
    rw [← e2]
    exact h1
  · simp only [keyLE, if_neg e1] at h1
    simp only [keyLE, if_neg e2] at h2
    by_cases e3 : x.1 = z.1
    · exfalso
      rw [← e3] at h2
      exact e1 (optNatLE_antisymm _ _ h1 h2)
    · simp only [keyLE, if_neg e3]
      exact optNatLE_trans _ _ _ h1 h2

theorem rowSortLE_total (a b : FinalRow) : (rowSortLE a b || rowSortLE b a) = true :=
  keyLE_total _ _

theorem rowSortLE_trans (a b c : FinalRow)
    (h1 : rowSortLE a b = true) (h2 : rowSortLE b c = true) : rowSortLE a c = true :=
  keyLE_trans _ _ _ h1 h2

theorem rowSortLE_nonNumeric (a b : FinalRow) (hle : rowSortLE a b = true)
    (ha : toNumeric a.filial = none) : toNumeric b.filial = none := by
  by_cases h : toNumeric a.filial = toNumeric b.filial
  · rw [← h, ha]
  · simp only [rowSortLE, keyLE, sortKey, if_neg h] at hle
    rw [ha] at hle
    rcases hb : toNumeric b.filial with _ | n
    · rfl
    · rw [hb] at hle
      simp [optNatLE] at hle

/-! ### Helper lemmas about counting rows of the inner merge -/

theorem countP_innerMergeRows (sciF : List SciRow) (trierF : List TrierRow) (k : String) :
    (innerMergeRows sciF trierF).countP (fun r => r.cpf == k)
      = sciF.countP (fun s => s.cpf == k) * trierF.countP (fun t => t.cpf == k) := by
  induction sciF with
  | nil => simp [innerMergeRows]
  | cons s ss ih =>
    simp only [innerMergeRows, List.flatMap_cons, List.countP_append, List.countP_map] at *
    have hcomp : ((fun r : FinalRow => r.cpf == k) ∘ mkFinalRow s)
        = fun _ : TrierRow => s.cpf == k := by
      funext t
      rfl
    rw [hcomp, ih, List.countP_cons]
    by_cases h : (s.cpf == k) = true
    · have hk : s.cpf = k := by simpa using h
      have hfilter : (fun t : TrierRow => t.cpf == s.cpf) = fun t : TrierRow => t.cpf == k := by
        rw [hk]
      simp only [h, hfilter, List.countP_true, ← List.countP_eq_length_filter, if_true]
      ring
    · have hb : (s.cpf == k) = false := by simpa using h
      simp [hb, Function.const]

/-! ### Helper lemmas about substring containment -/

theorem mem_of_startsWithChars :
    ∀ (pat l : List Char), startsWithChars pat l = true → ∀ c ∈ pat, c ∈ l := by
  intro pat
  induction pat with
  | nil => simp
  | cons p ps ih =>
    intro l h c hc
    cases l with
    | nil => simp [startsWithChars] at h
    | cons x xs =>
      simp only [startsWithChars, Bool.and_eq_true, decide_eq_true_eq] at h
      rcases List.mem_cons.mp hc with rfl | hc2
      · rw [h.1]
        exact List.mem_cons_self x xs
      · exact List.mem_cons_of_mem x (ih xs h.2 c hc2)

theorem mem_of_containsChars :
    ∀ (l pat : List Char), containsChars l pat = true → ∀ c ∈ pat, c ∈ l := by
  intro l
  induction l with
  | nil =>
    intro pat h c hc
    exact mem_of_startsWithChars pat [] h c hc
  | cons x xs ih =>
    intro pat h c hc
    rcases Bool.or_eq_true_iff.mp h with h1 | h2
    · exact mem_of_startsWithChars pat (x :: xs) h1 c hc
    · exact List.mem_cons_of_mem x (ih pat h2 c hc)

theorem isNumericStr_not_filial_marker (s : String)
    (h : isNumericStr s = true) : pyContains s "Filial:" = false := by
  by_contra hc
  have hc2 : pyContains s "Filial:" = true := by
    revert hc
    cases pyContains s "Filial:" <;> simp
  have hmem : 'F' ∈ s.data := by
    refine mem_of_containsChars s.data ("Filial:".data) hc2 'F' ?_
    decide
  simp only [isNumericStr, Bool.and_eq_true, List.all_eq_true] at h
  have := h.2 'F' hmem
  simp at this

/-! ### Helper lemmas about the column resolver scans -/

theorem findColumn_some (cols terms : List String) (c : String)
    (h : findColumn cols terms = some c) :
    c ∈ cols ∧ ∃ t ∈ terms, columnMatches c t = true := by
  induction terms with
  | nil => simp [findColumn] at h
  | cons t ts ih =>
    simp only [findColumn] at h
    rcases hf : cols.find? (fun x => columnMatches x t) with _ | c0
    · rw [hf] at h
      rcases ih h with ⟨hmem, t2, ht2, hm⟩
      exact ⟨hmem, t2, List.mem_cons_of_mem t ht2, hm⟩
    · rw [hf] at h
      cases h
      refine ⟨List.mem_of_find?_eq_some hf, t, List.mem_cons_self t ts, ?_⟩
      have := List.find?_some hf
      simpa using this

theorem findColumn_none (cols terms : List String)
    (h : findColumn cols terms = none) :
    ∀ t ∈ terms, ∀ c ∈ cols, columnMatches c t = false := by
  induction terms with
  | nil => simp
  | cons t ts ih =>
    simp only [findColumn] at h
    rcases hf : cols.find? (fun x => columnMatches x t) with _ | c0
    · rw [hf] at h
      intro t2 ht2 c hc
      rcases List.mem_cons.mp ht2 with rfl | ht3
      · have := List.find?_eq_none.mp hf c hc
        simpa using this
      · exact ih h t2 ht3 c hc
    · rw [hf] at h
      cases h

theorem findHeaderIdx_some (target : String) :
    ∀ (l : List Cell) (i j : Nat), findHeaderIdx target l i = some j →
      i ≤ j ∧ ∃ c, l[j - i]? = some c ∧ headerText c = target := by
  intro l
  induction l with
  | nil =>
    intro i j h
    simp [findHeaderIdx] at h
  | cons c t ih =>
    intro i j h
    by_cases hc : headerText c = target
    · simp only [findHeaderIdx, if_pos hc, Option.some_inj] at h
      refine ⟨h.le, c, ?_, hc⟩
      rw [← h, Nat.sub_self]
      simp
    · simp only [findHeaderIdx, if_neg hc] at h
      rcases ih (i + 1) j h with ⟨hle, c0, hget, htext⟩
      refine ⟨by omega, c0, ?_, htext⟩
      have harith : j - i = (j - (i + 1)) + 1 := by omega
      rw [harith]
      simpa using hget

theorem findHeaderIdx_none (target : String) :
    ∀ (l : List Cell) (i : Nat), findHeaderIdx target l i = none →
      ∀ c ∈ l, headerText c ≠ target := by
  intro l
  induction l with
  | nil => simp
  | cons c t ih =>
    intro i h c2 hc2
    by_cases hc : headerText c = target
    · simp [findHeaderIdx, hc] at h
    · simp only [findHeaderIdx, if_neg hc] at h
      rcases List.mem_cons.mp hc2 with rfl | hc3
      · exact hc
      · exact ih (i + 1) h c2 hc3

theorem findIdx_beq_none (c : String) :
    ∀ (l : List String), c ∉ l → ∀ i, List.findIdx? (fun x => x == c) l i = none := by
  intro l
  induction l with
  | nil =>
    intro _ i
    rfl
  | cons x xs ih =>
    intro h i
    have hx : ¬ x = c := fun he => h (by rw [he]; exact List.mem_cons_self c xs)
    have hxs : c ∉ xs := fun he => h (List.mem_cons_of_mem x he)
    simp only [List.findIdx?]
    rw [if_neg (by simpa using hx)]
    exact ih hxs (i + 1)

/-! ### Claim theorems -/

/-- C7: the Key Normalizer returns exactly the digit subsequence of its
input — cleanCPF of the formatted CPF 123.456.789-01 is 12345678901, of
the empty string the empty string — and it is idempotent on every
input. -/
theorem cleanCPF_digits_idempotent :
    cleanCPF "123.456.789-01" = "12345678901"
  ∧ cleanCPF "" = ""
  ∧ ∀ x : String, cleanCPF (cleanCPF x) = cleanCPF x := by
  refine ⟨by decide, by decide, ?_⟩
  intro x
  have h1 : (String.mk (x.data.filter Char.isDigit)).data = x.data.filter Char.isDigit := rfl
  simp [cleanCPF, h1, List.filter_filter]

/-- C3: on the row sequence Filial: 05 / sentinel 8000 carrying 1000 /
Total Filial 05 carrying 600, 50, 20, the extractor emits exactly one
record for the group, with group identifier 05 (zero-padded to two
digits), auxiliary value 1000 from the sentinel row, and the designated
value cells of the close row; the captured identifier and auxiliary value
are cleared after emission, so the following group, which has no sentinel
row of its own, is emitted with the empty (None) auxiliary value. -/
theorem groupedExtractor_example :
    processExcelRows demoCfg
      [[Cell.str "Filial:", Cell.str "05", Cell.blank, Cell.blank, Cell.blank],
       [Cell.str "8000", Cell.blank, Cell.int 1000],
       [Cell.str "Total Filial 05", Cell.blank, Cell.int 600, Cell.int 50, Cell.int 20],
       [Cell.str "Filial:", Cell.str "07"],
       [Cell.str "Total Filial 07", Cell.blank, Cell.int 1, Cell.int 2, Cell.int 3]]
    = Except.ok
      [⟨"05", Cell.int 1000, Cell.int 600, Cell.int 50, Cell.int 20⟩,
       ⟨"07", Cell.blank, Cell.int 1, Cell.int 2, Cell.int 3⟩] := by
  decide

/-- C4 counterexample: the claim promises a case-folded,
diacritic-insensitive substring match and a FieldNotFound report.  At the
concrete header código with search term codigo the specified comparison
matches, yet _find_and_rename_column locates no column and returns the
columns unchanged rather than reporting a failure; and at the concrete
header total vlr. venda extra, which contains the searched name total
vlr. venda as a substring with no accents involved, _get_column_index
still fails, because it matches by exact equality, not substring. -/
theorem columnResolver_cx :
    specColumnMatches "código" "codigo" = true
  ∧ findColumn ["código"] ["codigo"] = none
  ∧ findAndRenameColumn ["código"] ["codigo"] "Código" = ["código"]
  ∧ getColumnIndex [Cell.str "total vlr. venda extra"] "total vlr. venda"
      = Except.error "Header not found in sheet" := by
  refine ⟨by decide, by decide, by decide, by decide⟩

/-- C4 (amended): _find_and_rename_column matches case-insensitively (not
diacritic-insensitively) by substring, trying candidate terms in the
caller-supplied priority order, and when a column is found it lies in the
header and matches some term; when no column matches any term it returns
the columns unchanged (a logged warning, not a FieldNotFound failure).
_get_column_index matches by exact stripped case-insensitive equality
(not substring) and raises exactly when no header cell equals the
searched name. -/
theorem columnResolver_characterization :
    (∀ (cols terms : List String) (c : String), findColumn cols terms = some c →
        c ∈ cols ∧ ∃ t ∈ terms, columnMatches c t = true)
  ∧ (∀ (cols terms : List String), findColumn cols terms = none →
        ∀ t ∈ terms, ∀ c ∈ cols, columnMatches c t = false)
  ∧ (∀ (cols terms : List String) (target : String), findColumn cols terms = none →
        findAndRenameColumn cols terms target = cols)
  ∧ (∀ (headers : List Cell) (name : String) (i : Nat),
        getColumnIndex headers name = Except.ok i →
        ∃ c, headers[i]? = some c ∧ headerText c = pyLower (pyStrip name))
  ∧ (∀ (headers : List Cell) (name : String),
        getColumnIndex headers name = Except.error "Header not found in sheet" →
        ∀ c ∈ headers, headerText c ≠ pyLower (pyStrip name)) := by
  refine ⟨findColumn_some, findColumn_none, ?_, ?_, ?_⟩
  · intro cols terms target h
    simp [findAndRenameColumn, h]
  · intro headers name i h
    simp only [getColumnIndex] at h
    rcases hf : findHeaderIdx (pyLower (pyStrip name)) headers 0 with _ | j
    · rw [hf] at h
      cases h
    · rw [hf] at h
      have hj : j = i := by
        cases h
        rfl
      subst hj
      rcases findHeaderIdx_some (pyLower (pyStrip name)) headers 0 j hf with ⟨_, c, hget, htext⟩
      refine ⟨c, ?_, htext⟩
      simpa using hget
  · intro headers name h c hc
    simp only [getColumnIndex] at h
    rcases hf : findHeaderIdx (pyLower (pyStrip name)) headers 0 with _ | j
    · exact findHeaderIdx_none (pyLower (pyStrip name)) headers 0 hf c hc
    · rw [hf] at h
      cases h

/-- C4 witness: the characterization applied at concrete inputs — the
term priority list for Cargo atual locates the column Cargo Atual, and
_get_column_index resolves código to the stripped header at index 0. -/
theorem columnResolver_characterization_witness :
    ("Cargo Atual" ∈ ["Nome", "Cargo Atual"]
      ∧ ∃ t ∈ ["cargo atual", "cargo"], columnMatches "Cargo Atual" t = true)
  ∧ (∃ c, ([Cell.str " Código ", Cell.blank] : List Cell)[0]? = some c
      ∧ headerText c = pyLower (pyStrip "código")) :=
  ⟨columnResolver_characterization.1 ["Nome", "Cargo Atual"] ["cargo atual", "cargo"]
      "Cargo Atual" (by decide),
   columnResolver_characterization.2.2.2.1 [Cell.str " Código ", Cell.blank] "código" 0
      (by decide)⟩

/-- C8: a group-close row met while no group identifier is captured is
dropped — the filial-totals step leaves the state unchanged and emits
nothing — and a zero-emission, state-preserving step makes the scan
continue with the remaining rows exactly as if the row were absent; the
commission variant behaves the same for a detail (purely numeric key) row
met while no group is open.  No failure value exists on these paths: the
step and scan functions are total. -/
theorem idleRows_dropped :
    (∀ (cfg : VFCols) (st : VFState) (row : List Cell),
        filialFalsy st.filial = true →
        pyStartsWith (pyLower (rowCodigo cfg row)) "total filial" = true →
        vfStep cfg st row = (st, []))
  ∧ (∀ (cfg : VFCols) (st : VFState) (row : List Cell) (rest : List (List Cell)),
        vfStep cfg st row = (st, []) →
        vfScanFrom cfg st (row :: rest) = vfScanFrom cfg st rest)
  ∧ (∀ (st : ComState) (row : ComRow),
        filialFalsy st.filial = true →
        isNumericStr (pyStr row.codigo) = true →
        comStep st row = (st, []))
  ∧ (∀ (st : ComState) (row : ComRow) (rest : List ComRow),
        comStep st row = (st, []) →
        comScanFrom st (row :: rest) = comScanFrom st rest) := by
  refine ⟨?_, ?_, ?_, ?_⟩
  · intro cfg st row hidle hclose
    have h1 : ¬ pyLower (rowCodigo cfg row) = "filial:" := by
      intro he
      rw [he] at hclose
      exact absurd hclose (by decide)
    have h2 : ¬ rowCodigo cfg row = "8000" := by
      intro he
      rw [he] at hclose
      exact absurd hclose (by decide)
    simp [vfStep, h1, h2, hclose, hidle]
  · intro cfg st row rest h
    simp [vfScanFrom, h]
  · intro st row hidle hnum
    have hnc : pyContains (pyStr row.codigo) "Filial:" = false :=
      isNumericStr_not_filial_marker _ hnum
    simp [comStep, hnc, hnum, hidle]
  · intro st row rest h
    simp [comScanFrom, h]

/-- C8 witness: a Total Filial close row in the initial (Idle) state of
the filial scan, and a numeric detail row in the initial state of the
commission scan, each produce the unchanged state and no records. -/
theorem idleRows_dropped_witness :
    vfStep demoCfg vfInit
        [Cell.str "Total Filial 05", Cell.blank, Cell.int 1, Cell.int 2, Cell.int 3]
      = (vfInit, [])
  ∧ comStep ⟨none⟩ ⟨Cell.str "123", Cell.str "M", Cell.blank, Cell.blank, Cell.blank⟩
      = (⟨none⟩, []) :=
  ⟨idleRows_dropped.1 demoCfg vfInit
      [Cell.str "Total Filial 05", Cell.blank, Cell.int 1, Cell.int 2, Cell.int 3]
      (by decide) (by decide),
   idleRows_dropped.2.2.1 ⟨none⟩
      ⟨Cell.str "123", Cell.str "M", Cell.blank, Cell.blank, Cell.blank⟩
      (by decide) (by decide)⟩

/-- C9: the Schema Projector produces, for any input table, a value
matrix headed by the fixed schema in which every row has exactly the
schema's fields in schema order (so input fields outside the schema are
dropped), every input row appears projected, and any field absent from
the input columns — such as Cargo atual — reads as the empty string in
every projected row. -/
theorem schemaProjector_fixed_schema :
    ∀ (t : RawTable),
      ((createFilteredValues t).head? = some requiredColumns)
    ∧ (∀ v ∈ createFilteredValues t, v.length = requiredColumns.length)
    ∧ (∀ r ∈ t.rows, projectRow t.cols r ∈ createFilteredValues t)
    ∧ (∀ c, c ∉ t.cols → ∀ r, lookupCell t.cols r c = "") := by
  intro t
  refine ⟨?_, ?_, ?_, ?_⟩
  · by_cases h : t.rows.isEmpty
    · simp [createFilteredValues, h]
    · simp [createFilteredValues, h]
  · intro v hv
    by_cases h : t.rows.isEmpty
    · simp [createFilteredValues, h] at hv
      rw [hv]
    · simp only [createFilteredValues, if_neg h] at hv
      rcases List.mem_cons.mp hv with rfl | hv2
      · rfl
      · rcases List.mem_map.mp hv2 with ⟨r, _, hrow⟩
        rw [← hrow]
        simp [projectRow]
  · intro r hr
    have h : ¬ t.rows.isEmpty = true := by
      intro he
      rw [List.isEmpty_iff.mp he] at hr
      cases hr
    simp only [createFilteredValues, if_neg h]
    exact List.mem_cons_of_mem _ (List.mem_map_of_mem _ hr)
  · intro c hc r
    simp only [lookupCell]
    rw [findIdx_beq_none c t.cols hc 0]

/-- C9 witness: on the concrete table with columns Filial and CPF only,
the projected data row appears in the output and the absent schema field
Cargo atual reads as the empty string. -/
theorem schemaProjector_fixed_schema_witness :
    projectRow ["Filial", "CPF"] ["1", "111"]
      ∈ createFilteredValues ⟨["Filial", "CPF"], [["1", "111"]]⟩
  ∧ lookupCell ["Filial", "CPF"] ["1", "111"] "Cargo atual" = "" :=
  ⟨(schemaProjector_fixed_schema ⟨["Filial", "CPF"], [["1", "111"]]⟩).2.2.1
      ["1", "111"] (by decide),
   (schemaProjector_fixed_schema ⟨["Filial", "CPF"], [["1", "111"]]⟩).2.2.2
      "Cargo atual" (by decide) ["1", "111"]⟩

/-- C10: capture of the auxiliary value from a sentinel 8000 row is not
gated on a group being open — in both extractor variants, any row whose
key text is 8000 overwrites the stored auxiliary value regardless of the
current state — and concretely a sentinel row arriving while Idle, before
the first Filial: opener, still supplies the auxiliary value of the next
emitted record. -/
theorem sentinel_capture_ungated :
    (∀ (cfg : VFCols) (st : VFState) (row : List Cell),
        rowCodigo cfg row = "8000" →
        vfStep cfg st row = ({ st with fatHB := getCell row cfg.venda }, []))
  ∧ (∀ (cfg : VFCols) (st : VFState) (row : List Cell),
        readyRowCodigo cfg row = "8000" →
        readyVfStep cfg st row = ({ st with fatHB := getCell row cfg.venda }, []))
  ∧ (processExcelRows demoCfg
        [[Cell.str "8000", Cell.blank, Cell.int 77],
         [Cell.str "Filial:", Cell.str "05"],
         [Cell.str "Total Filial 05", Cell.blank, Cell.int 9, Cell.int 8, Cell.int 7]]
      = Except.ok [⟨"05", Cell.int 77, Cell.int 9, Cell.int 8, Cell.int 7⟩]) := by
  refine ⟨?_, ?_, by decide⟩
  · intro cfg st row h
    have h2 : ¬ pyLower "8000" = "filial:" := by decide
    simp [vfStep, h, h2]
  · intro cfg st row h
    have h2 : ¬ pyLower "8000" = "filial:" := by decide
    simp [readyVfStep, h, h2]

/-- C10 witness: the ungated-capture transition applied at a concrete
sentinel row in the initial Idle state. -/
theorem sentinel_capture_ungated_witness :
    vfStep demoCfg vfInit [Cell.str "8000", Cell.blank, Cell.int 55]
      = ({ vfInit with fatHB := Cell.int 55 }, []) :=
  sentinel_capture_ungated.1 demoCfg vfInit [Cell.str "8000", Cell.blank, Cell.int 55]
    (by decide)

/-- C1 counterexample: a key occurring twice in one source is not
deduplicated — with the key 111 twice in user_sci and once in user_trier,
the merged output carries two records for that key, not exactly one; the
second occurrence contributes its own record instead of being dropped. -/
theorem duplicateKeys_cx :
    (combineData [⟨"1", "111", "X"⟩, ⟨"2", "111", "Y"⟩] [⟨"9", "111", "N"⟩]).rows.length = 2
  ∧ ¬ (combineData [⟨"1", "111", "X"⟩, ⟨"2", "111", "Y"⟩]
        [⟨"9", "111", "N"⟩]).rows.countP (fun r => r.cpf == "111") = 1 := by
  refine ⟨by decide, by decide⟩

/-- C1 (amended): combine_data performs no deduplication by key — for
every pair of prepared sources and every key, the merged output contains
exactly (number of rows with that key, nonempty after stripping, in
user_sci) times (number of such rows in user_trier) records for that key:
one record per matching pair of rows, so duplicate keys multiply instead
of collapsing to a single first-seen record. -/
theorem combineData_count_per_key :
    ∀ (sci : List SciRow) (trier : List TrierRow) (k : String),
      (combineData sci trier).rows.countP (fun r => r.cpf == k)
        = (sci.filter (fun r => cpfKept r.cpf)).countP (fun s => s.cpf == k)
          * (trier.filter (fun r => cpfKept r.cpf)).countP (fun t => t.cpf == k) := by
  intro sci trier k
  by_cases h1 : sci.isEmpty
  · rw [List.isEmpty_iff.mp h1]
    simp [combineData, emptyResult]
  · by_cases h2 : trier.isEmpty
    · rw [List.isEmpty_iff.mp h2]
      simp [combineData, h1, emptyResult]
    · by_cases hcom : (sci.filter (fun r => cpfKept r.cpf)).any
          (fun s => (trier.filter (fun r => cpfKept r.cpf)).any (fun t => t.cpf == s.cpf)) = true
      · have hmain : (combineData sci trier).rows
            = stableSort rowSortLE
              ((innerMergeRows (sci.filter (fun r => cpfKept r.cpf))
                  (trier.filter (fun r => cpfKept r.cpf))).filter (fun r => cpfKept r.cpf)) := by
          simp only [combineData]
          rw [if_neg h1, if_neg h2, if_pos hcom]
        rw [hmain, countP_stableSort, List.countP_filter]
        by_cases hk : cpfKept k = true
        · have hpt : (fun r : FinalRow => (r.cpf == k) && cpfKept r.cpf)
              = fun r : FinalRow => r.cpf == k := by
            funext r
            by_cases hr : (r.cpf == k) = true
            · have he : r.cpf = k := by simpa using hr
              rw [hr, he, hk]
              simp
            · have hf : (r.cpf == k) = false := by simpa using hr
              rw [hf]
              simp
          rw [hpt, countP_innerMergeRows]
        · have hkf : cpfKept k = false := by simpa using hk
          have hpt : (fun r : FinalRow => (r.cpf == k) && cpfKept r.cpf)
              = fun _ : FinalRow => false := by
            funext r
            by_cases hr : (r.cpf == k) = true
            · have he : r.cpf = k := by simpa using hr
              rw [hr, he, hkf]
              simp
            · have hf : (r.cpf == k) = false := by simpa using hr
              rw [hf]
              simp
          have hs0 : (sci.filter (fun r => cpfKept r.cpf)).countP (fun s => s.cpf == k) = 0 := by
            rw [List.countP_eq_zero]
            intro s hs hbeq
            have he : s.cpf = k := by simpa using hbeq
            have hkept := (List.mem_filter.mp hs).2
            rw [he, hkf] at hkept
            cases hkept
          rw [hpt, hs0]
          simp [Function.const]
      · have hres : (combineData sci trier).rows = [] := by
          simp only [combineData]
          rw [if_neg h1, if_neg h2, if_neg hcom]
          rfl
        rw [hres]
        rcases Nat.eq_zero_or_pos
            ((sci.filter (fun r => cpfKept r.cpf)).countP (fun s => s.cpf == k)) with hz | hp
        · rw [hz]
          simp
        · rcases Nat.eq_zero_or_pos
              ((trier.filter (fun r => cpfKept r.cpf)).countP (fun t => t.cpf == k)) with hz2 | hp2
          · rw [hz2]
            simp
          · exfalso
            rcases List.countP_pos.mp hp with ⟨s, hs, hsk⟩
            rcases List.countP_pos.mp hp2 with ⟨t, ht, htk⟩
            refine hcom (List.any_eq_true.mpr ⟨s, hs, List.any_eq_true.mpr ⟨t, ht, ?_⟩⟩)
            have h1e : s.cpf = k := by simpa using hsk
            have h2e : t.cpf = k := by simpa using htk
            rw [h1e, h2e]
            simp

/-- C2 counterexample: the claim's example gives Name X to source A and
only Code 9 to source B, promising the Record with Name X.  The code
reads the output Nome field exclusively from user_trier's Funcionário
column (user_calc.py line 244), and user_sci's preparation keeps only
Filial, CPF and Cargo atual (lines 149-155), dropping any name column —
so A's Name value never reaches the merge.  Instantiating the example
faithfully (A contributes branch 1 under key 111, its Name X is dropped
by the column selection; B contributes code 9 and no name value), the
single emitted Record carries the empty Name, not X. -/
theorem nameField_source_cx :
    (combineData [⟨"1", "111", ""⟩] [⟨"9", "111", ""⟩]).rows.map (fun r => r.nome) = [""]
  ∧ (combineData [⟨"1", "111", ""⟩] [⟨"9", "111", ""⟩]).rows.map (fun r => r.nome)
      ≠ ["X"] := by
  refine ⟨by decide, by decide⟩

/-- C2 (amended): the Merge Engine performs an inner join on the
normalized key with a fixed per-field source assignment and no
precedence fallback — concretely, one record per shared key with Filial
and Cargo atual taken from the user_sci row and Código and Nome (the
Funcionário value) from the user_trier row; in general every output
record is mkFinalRow of a key-matched pair of source rows, so a name
value held by source A is never read; and for every pair of sources with
disjoint key sets the result is the zero-row frame that still carries
the full output schema, returned as a value (no exception path exists in
the model, matching the source, which returns the empty frame at line
214). -/
theorem combineData_fixed_assignment :
    (combineData [⟨"1", "111", "X"⟩] [⟨"9", "111", "N"⟩]
      = ⟨requiredColumns, [⟨"1", "9", "111", "N", "X"⟩]⟩)
  ∧ (∀ (sci : List SciRow) (trier : List TrierRow),
      ∀ r ∈ (combineData sci trier).rows,
        ∃ s ∈ sci, ∃ t ∈ trier, s.cpf = t.cpf ∧ r = mkFinalRow s t)
  ∧ ∀ (sci : List SciRow) (trier : List TrierRow),
      (∀ s ∈ sci, ∀ t ∈ trier, s.cpf ≠ t.cpf) →
      combineData sci trier = ⟨requiredColumns, []⟩ := by
  refine ⟨by decide, ?_, ?_⟩
  · intro sci trier r hr
    by_cases h1 : sci.isEmpty
    · exfalso
      have hres : (combineData sci trier).rows = [] := by
        simp only [combineData]
        rw [if_pos h1]
        rfl
      rw [hres] at hr
      cases hr
    · by_cases h2 : trier.isEmpty
      · exfalso
        have hres : (combineData sci trier).rows = [] := by
          simp only [combineData]
          rw [if_neg h1, if_pos h2]
          rfl
        rw [hres] at hr
        cases hr
      · by_cases hcom : (sci.filter (fun r => cpfKept r.cpf)).any
            (fun s => (trier.filter (fun r => cpfKept r.cpf)).any (fun t => t.cpf == s.cpf))
              = true
        · have hmain : (combineData sci trier).rows
              = stableSort rowSortLE
                ((innerMergeRows (sci.filter (fun r => cpfKept r.cpf))
                    (trier.filter (fun r => cpfKept r.cpf))).filter
                  (fun r => cpfKept r.cpf)) := by
            simp only [combineData]
            rw [if_neg h1, if_neg h2, if_pos hcom]
          rw [hmain] at hr
          have hr2 := (stableSort_perm rowSortLE _).mem_iff.mp hr
          have hr3 := (List.mem_filter.mp hr2).1
          simp only [innerMergeRows] at hr3
          rcases List.mem_flatMap.mp hr3 with ⟨s, hsF, hmap⟩
          rcases List.mem_map.mp hmap with ⟨t, htF, hrt⟩
          have hteq : t.cpf = s.cpf := by
            simpa using (List.mem_filter.mp htF).2
          exact ⟨s, (List.mem_filter.mp hsF).1, t,
            (List.mem_filter.mp (List.mem_filter.mp htF).1).1, hteq.symm, hrt.symm⟩
        · exfalso
          have hres : (combineData sci trier).rows = [] := by
            simp only [combineData]
            rw [if_neg h1, if_neg h2, if_neg hcom]
            rfl
          rw [hres] at hr
          cases hr
  · intro sci trier h
    by_cases h1 : sci.isEmpty
    · simp [combineData, h1, emptyResult]
    · by_cases h2 : trier.isEmpty
      · simp [combineData, h1, h2, emptyResult]
      · have hcom : ¬ (sci.filter (fun r => cpfKept r.cpf)).any
            (fun s => (trier.filter (fun r => cpfKept r.cpf)).any (fun t => t.cpf == s.cpf))
              = true := by
          intro hc
          rcases List.any_eq_true.mp hc with ⟨s, hs, hinner⟩
          rcases List.any_eq_true.mp hinner with ⟨t, ht, heq⟩
          have hseq : t.cpf = s.cpf := by simpa using heq
          exact h s (List.mem_filter.mp hs).1 t (List.mem_filter.mp ht).1 hseq.symm
        simp only [combineData]
        rw [if_neg h1, if_neg h2, if_neg hcom]
        rfl

/-- C2 witness: the pair-origin conjunct applied at the concrete merged
record of the amended example (its fields come from the key-matched pair
of source rows), and the disjoint-keys branch applied at concrete
sources with keys 222 and 333. -/
theorem combineData_fixed_assignment_witness :
    (∃ s ∈ [(⟨"1", "111", "X"⟩ : SciRow)], ∃ t ∈ [(⟨"9", "111", "N"⟩ : TrierRow)],
        s.cpf = t.cpf ∧ (⟨"1", "9", "111", "N", "X"⟩ : FinalRow) = mkFinalRow s t)
  ∧ combineData [⟨"1", "222", "X"⟩] [⟨"9", "333", "N"⟩] = ⟨requiredColumns, []⟩ :=
  ⟨combineData_fixed_assignment.2.1 [⟨"1", "111", "X"⟩] [⟨"9", "111", "N"⟩]
      ⟨"1", "9", "111", "N", "X"⟩ (by decide),
   combineData_fixed_assignment.2.2 [⟨"1", "222", "X"⟩] [⟨"9", "333", "N"⟩] (by decide)⟩

/-- C5 counterexample: two non-numeric group identifiers do not fall back
to lexical order among themselves — with identifiers b then a (equal
secondary codes), the sorted output keeps the original order b, a, not
the lexical a, b the claim requires. -/
theorem sortOrder_cx :
    ((combineData [⟨"b", "1", ""⟩, ⟨"a", "2", ""⟩]
        [⟨"5", "1", "n"⟩, ⟨"5", "2", "m"⟩]).rows.map (fun r => r.filial)) = ["b", "a"]
  ∧ ((combineData [⟨"b", "1", ""⟩, ⟨"a", "2", ""⟩]
        [⟨"5", "1", "n"⟩, ⟨"5", "2", "m"⟩]).rows.map (fun r => r.filial)) ≠ ["a", "b"] := by
  refine ⟨by decide, by decide⟩

/-- C5 (amended): the merged output is sorted numeric-aware by group
identifier then secondary code — the claim's example list 10, 2, abc, 1
does sort to 1, 2, 10, abc, every output is pairwise ordered under the
comparison that parses identifiers as numbers and never mixes a numeric
with a lexical comparison, and an identifier that fails numeric parsing
sorts after all numeric identifiers — but among themselves the
non-numeric identifiers keep their original relative order (the sort is
stable), not lexical order, as the concrete pair zz, aa shows. -/
theorem sortOrder_amended :
    (((combineData [⟨"10", "1", ""⟩, ⟨"2", "2", ""⟩, ⟨"abc", "3", ""⟩, ⟨"1", "4", ""⟩]
        [⟨"5", "1", "n"⟩, ⟨"5", "2", "n"⟩, ⟨"5", "3", "n"⟩, ⟨"5", "4", "n"⟩]).rows.map
          (fun r => r.filial)) = ["1", "2", "10", "abc"])
  ∧ (∀ (sci : List SciRow) (trier : List TrierRow),
      ((combineData sci trier).rows).Pairwise (fun a b => rowSortLE a b = true))
  ∧ (∀ (sci : List SciRow) (trier : List TrierRow),
      ((combineData sci trier).rows).Pairwise
        (fun a b => toNumeric a.filial = none → toNumeric b.filial = none))
  ∧ (((combineData [⟨"zz", "1", ""⟩, ⟨"aa", "2", ""⟩]
        [⟨"7", "1", "n"⟩, ⟨"7", "2", "m"⟩]).rows.map (fun r => r.filial)) = ["zz", "aa"]) := by
  have hshape : ∀ (sci : List SciRow) (trier : List TrierRow),
      (combineData sci trier).rows = []
    ∨ ∃ l, (combineData sci trier).rows = stableSort rowSortLE l := by
    intro sci trier
    by_cases h1 : sci.isEmpty
    · exact Or.inl (by simp [combineData, h1, emptyResult])
    · by_cases h2 : trier.isEmpty
      · exact Or.inl (by simp [combineData, h1, h2, emptyResult])
      · by_cases hcom : (sci.filter (fun r => cpfKept r.cpf)).any
            (fun s => (trier.filter (fun r => cpfKept r.cpf)).any (fun t => t.cpf == s.cpf))
              = true
        · refine Or.inr ⟨(innerMergeRows (sci.filter (fun r => cpfKept r.cpf))
              (trier.filter (fun r => cpfKept r.cpf))).filter (fun r => cpfKept r.cpf), ?_⟩
          simp only [combineData]
          rw [if_neg h1, if_neg h2, if_pos hcom]
        · refine Or.inl ?_
          simp only [combineData]
          rw [if_neg h1, if_neg h2, if_neg hcom]
          rfl
  have hsorted : ∀ (sci : List SciRow) (trier : List TrierRow),
      ((combineData sci trier).rows).Pairwise (fun a b => rowSortLE a b = true) := by
    intro sci trier
    rcases hshape sci trier with h | ⟨l, h⟩
    · rw [h]
      exact List.Pairwise.nil
    · rw [h]
      exact pairwise_stableSort rowSortLE rowSortLE_trans rowSortLE_total l
  refine ⟨by decide, hsorted, ?_, by decide⟩
  intro sci trier
  exact (hsorted sci trier).imp (fun hab ha => rowSortLE_nonNumeric _ _ hab ha)

/-- C6 counterexample: in the legacy ready_venda_filial pipeline a scan
that completes without emitting any record is not fatal — on an empty row
sequence the scan yields zero records and main takes the warn-and-skip
path, returning normally instead of raising a NoRecordsExtracted
failure. -/
theorem emptyScan_nonfatal_cx :
    readyVfScan demoCfg [] = []
  ∧ readyVendaFilialMain demoCfg [] = ReadyOutcome.skippedEmpty := by
  refine ⟨rfl, rfl⟩

/-- C6 (amended): a zero-record banded scan is fatal in two of the three
pipelines — VendasFilialProcessor.process_excel_data errors exactly when
its scan emits nothing, and the commission processor errors on an empty
scan — but in the legacy ready_venda_filial script the empty scan result
is returned without error and main logs a warning and skips the upload,
ending normally. -/
theorem noRecordsExtracted_policy :
    (∀ (cfg : VFCols) (rows : List (List Cell)),
        processExcelRows cfg rows
            = Except.error "No valid filial data found after processing"
          ↔ vfScan cfg rows = [])
  ∧ (∀ rows : List ComRow, comScan rows = [] →
        comissaoProcess rows = Except.error "No valid employee rows found after processing")
  ∧ (∀ (cfg : VFCols) (rows : List (List Cell)), readyVfScan cfg rows = [] →
        readyVendaFilialMain cfg rows = ReadyOutcome.skippedEmpty) := by
  refine ⟨?_, ?_, ?_⟩
  · intro cfg rows
    constructor
    · intro h
      by_cases he : (vfScan cfg rows).isEmpty
      · exact List.isEmpty_iff.mp he
      · exfalso
        simp [processExcelRows, he] at h
    · intro h
      simp [processExcelRows, h]
  · intro rows h
    simp [comissaoProcess, h]
  · intro cfg rows h
    simp [readyVendaFilialMain, h]

/-- C6 witness: the policy applied at concrete inputs — the commission
processor errors on the empty sheet, the legacy main skips on a sheet
with one inert row, and the filial processor errors on a sheet with one
inert row. -/
theorem noRecordsExtracted_policy_witness :
    comissaoProcess [] = Except.error "No valid employee rows found after processing"
  ∧ readyVendaFilialMain demoCfg [[Cell.str "x"]] = ReadyOutcome.skippedEmpty
  ∧ processExcelRows demoCfg [[Cell.str "y"]]
      = Except.error "No valid filial data found after processing" :=
  ⟨noRecordsExtracted_policy.2.1 [] rfl,
   noRecordsExtracted_policy.2.2 demoCfg [[Cell.str "x"]] (by decide),
   (noRecordsExtracted_policy.1 demoCfg [[Cell.str "y"]]).mpr (by decide)⟩

end CompMeta
